import Mathlib

/-!
Verification of the Research AI Agent repository.

The repository ships a React/TypeScript frontend (API client modules, the
App component with its polling loop, `getHost`, the reading/briefing render
logic); the FastAPI backend it talks to (pipeline orchestrator, task store,
vector index) is described by the specification but its code is not part of
the checked sources. Frontend functions are embedded directly from the
TypeScript; the backend pipeline is modelled from the specification, with
each such definition marked `Modelled from the spec:` in its doc comment.
-/

set_option autoImplicit false

namespace ResearchAgent

/-! ### Data model: stage outputs, Task snapshots -/

/-- Task status enum, embedded from the `TaskData` declaration of the api
modules: `status: 'running' | 'completed' | 'error'`. -/
inductive Status
  | running
  | completed
  | error
deriving DecidableEq, Repr

/-- A search hit `{title, url}`, per the spec's `SourceRef`. -/
structure SourceRef where
  title : String
  url : String
deriving DecidableEq, Repr

/-- Spec `PlanOutput{steps: ordered_sequence<string>}` from the spec data model. -/
structure PlanOutput where
  steps : List String
deriving DecidableEq, Repr

/-- Spec `SearchOutput{hits: ordered_sequence<SourceRef>}` from the spec data model. -/
structure SearchOutput where
  hits : List SourceRef
deriving DecidableEq, Repr

/-- One read document: either `{title,url,content}` or, when its fetch
failed, `{title,url,error}` (spec `ReadOutput` element). -/
inductive ReadDoc
  | content (title url content : String)
  | fetchFailed (title url err : String)
deriving DecidableEq, Repr

/-- Spec `ReadOutput{documents}` from the spec data model. -/
structure ReadOutput where
  documents : List ReadDoc
deriving DecidableEq, Repr

/-- Spec `VerifyOutput{analysis: string}` from the spec data model. -/
structure VerifyOutput where
  analysis : String
deriving DecidableEq, Repr

/-- Spec `ReflectOutput{need_more: bool, refined_query: optional string}` from the
spec data model. -/
structure ReflectOutput where
  need_more : Bool
  refined_query : Option String
deriving DecidableEq, Repr

/-- Spec `StructuredBrief{introduction, key_findings, risks, conclusion, sources}`
from the spec data model. -/
structure StructuredBrief where
  introduction : String
  key_findings : String
  risks : String
  conclusion : String
  sources : String
deriving DecidableEq, Repr

/-- Tagged union over all stage outputs (spec `StageOutput`). -/
inductive StageOutput
  | plan (o : PlanOutput)
  | search (o : SearchOutput)
  | read (o : ReadOutput)
  | verify (o : VerifyOutput)
  | reflect (o : ReflectOutput)
  | brief (o : StructuredBrief)
deriving DecidableEq, Repr

/-- The six pipeline stage names, embedded from the `steps` keys of the
`TaskData` declaration of the api modules (and the frontend `stepOrder`). -/
inductive StageName
  | planning
  | searching
  | reading
  | verifying
  | reflecting
  | briefing
deriving DecidableEq, Repr, Fintype

/-- Pipeline position of a stage, 0 (planning) through 5 (briefing). -/
def stageIdx : StageName → Nat
  | .planning => 0
  | .searching => 1
  | .reading => 2
  | .verifying => 3
  | .reflecting => 4
  | .briefing => 5

/-- The stage names in pipeline order, as in the frontend `stepOrder` array. -/
def stageNames : List StageName :=
  [.planning, .searching, .reading, .verifying, .reflecting, .briefing]

/-- The `steps` mapping of a Task: each of the six stage names maps to a
stage output or is absent, embedded from the `TaskData.steps` declaration. -/
structure Steps where
  planning : Option PlanOutput := none
  searching : Option SearchOutput := none
  reading : Option ReadOutput := none
  verifying : Option VerifyOutput := none
  reflecting : Option ReflectOutput := none
  briefing : Option StructuredBrief := none
deriving DecidableEq, Repr

/-- Look a stage output up by stage name. -/
def stepsLookup (s : Steps) : StageName → Option StageOutput
  | .planning => s.planning.map .plan
  | .searching => s.searching.map .search
  | .reading => s.reading.map .read
  | .verifying => s.verifying.map .verify
  | .reflecting => s.reflecting.map .reflect
  | .briefing => s.briefing.map .brief

/-- Whether a stage's output is present in the `steps` mapping. -/
def stagePresent (s : Steps) : StageName → Bool
  | .planning => s.planning.isSome
  | .searching => s.searching.isSome
  | .reading => s.reading.isSome
  | .verifying => s.verifying.isSome
  | .reflecting => s.reflecting.isSome
  | .briefing => s.briefing.isSome

/-- A Task snapshot, embedded from the `TaskData` declaration of the api
modules: `{task_id, query, status, steps, brief?, error?}`. -/
structure Task where
  task_id : String
  query : String
  status : Status
  steps : Steps
  brief : Option StructuredBrief
  error : Option String
deriving DecidableEq, Repr

/-! ### Pipeline orchestrator (modelled from the spec) -/

/-- Modelled from the spec: the stage effects of the backend pipeline
(generation provider, fallback fetcher plus index search, reading, verifying,
reflecting, briefing), each fallible; the backend `agent.py` is not among the
checked sources, so only its interface shape is fixed here. -/
structure Env where
  planFn : String → Except String PlanOutput
  searchFn : String → Except String SearchOutput
  readFn : List SourceRef → Except String ReadOutput
  verifyFn : ReadOutput → Except String VerifyOutput
  reflectFn : String → VerifyOutput → Except String ReflectOutput
  briefFn : String → Except String StructuredBrief

/-- Control position of the orchestrator run; `done` is terminal. -/
inductive Phase
  | planning
  | searching
  | reading
  | verifying
  | reflecting
  | briefing
  | done
deriving DecidableEq, Repr

/-- Numeric position of a phase (done = 6). -/
def phaseIdx : Phase → Nat
  | .planning => 0
  | .searching => 1
  | .reading => 2
  | .verifying => 3
  | .reflecting => 4
  | .briefing => 5
  | .done => 6

/-- Modelled from the spec: one orchestrator run's state — its Task record,
the (possibly refined) current query, the control phase, and how many
reflection-triggered re-searches have been taken. -/
structure OState where
  task : Task
  currentQuery : String
  phase : Phase
  reflections : Nat
deriving DecidableEq, Repr

/-- Modelled from the spec: a freshly submitted Task in `running` status with
no stage outputs, about to run `planning`. -/
def initState (query taskId : String) : OState :=
  { task := { task_id := taskId, query := query, status := .running,
              steps := {}, brief := none, error := none },
    currentQuery := query, phase := .planning, reflections := 0 }

/-- Modelled from the spec: an unrecoverable stage failure sets
`status = error` with a message and halts further stage execution, leaving
already recorded stage outputs in place. -/
def failState (s : OState) (msg : String) : OState :=
  { s with task := { s.task with status := .error, error := some msg },
           phase := .done }

/-- Modelled from the spec: one transition of the six-stage pipeline state
machine `planning → searching → reading → verifying → reflecting →
(briefing | searching) → completed`, with `error` absorbing, and at most one
reflection-triggered re-search per task. -/
def step (env : Env) (s : OState) : OState :=
  match s.phase with
  | .done => s
  | .planning =>
    match env.planFn s.currentQuery with
    | .error m => failState s m
    | .ok o =>
      { s with task := { s.task with steps := { s.task.steps with planning := some o } },
               phase := .searching }
  | .searching =>
    match env.searchFn s.currentQuery with
    | .error m => failState s m
    | .ok o =>
      { s with task := { s.task with steps := { s.task.steps with searching := some o } },
               phase := .reading }
  | .reading =>
    match s.task.steps.searching with
    | none => failState s "internal invariant violation: missing search output"
    | some so =>
      match env.readFn so.hits with
      | .error m => failState s m
      | .ok o =>
        { s with task := { s.task with steps := { s.task.steps with reading := some o } },
                 phase := .verifying }
  | .verifying =>
    match s.task.steps.reading with
    | none => failState s "internal invariant violation: missing read output"
    | some ro =>
      match env.verifyFn ro with
      | .error m => failState s m
      | .ok o =>
        { s with task := { s.task with steps := { s.task.steps with verifying := some o } },
                 phase := .reflecting }
  | .reflecting =>
    match s.task.steps.verifying with
    | none => failState s "internal invariant violation: missing verify output"
    | some vo =>
      match env.reflectFn s.currentQuery vo with
      | .error m => failState s m
      | .ok o =>
        if o.need_more && s.reflections == 0 then
          { s with task := { s.task with steps := { s.task.steps with reflecting := some o } },
                   currentQuery := o.refined_query.getD s.currentQuery,
                   phase := .searching, reflections := s.reflections + 1 }
        else
          { s with task := { s.task with steps := { s.task.steps with reflecting := some o } },
                   phase := .briefing }
  | .briefing =>
    match env.briefFn s.currentQuery with
    | .error m => failState s m
    | .ok b =>
      { s with task := { s.task with steps := { s.task.steps with briefing := some b }, brief := some b, status := .completed },
               phase := .done }

/-- The Task after the orchestrator run has fully terminated (the state
machine is stationary after at most 11 transitions, proved below); this is
the synchronous `run_once` view of the pipeline. -/
def finalTask (env : Env) (query taskId : String) : Task :=
  ((step env)^[11] (initState query taskId)).task

/-- Modelled from the spec: `run_once(query)` blocks until the task is
`completed` or `error` and returns the full stage-output map keyed by stage
name `Planning, Searching, Reading, Verifying, Reflecting, Briefing`. -/
def runOnce (env : Env) (query taskId : String) : List (String × Option StageOutput) :=
  let t := finalTask env query taskId
  [ ("Planning", stepsLookup t.steps .planning),
    ("Searching", stepsLookup t.steps .searching),
    ("Reading", stepsLookup t.steps .reading),
    ("Verifying", stepsLookup t.steps .verifying),
    ("Reflecting", stepsLookup t.steps .reflecting),
    ("Briefing", stepsLookup t.steps .briefing) ]

/-- Modelled from the spec: `get_status(task_id)` returns the Task snapshot
from the task store and fails with `NotFound` for an unknown id. -/
def getStatus (store : List (String × Task)) (taskId : String) : Except String Task :=
  match store.lookup taskId with
  | some t => .ok t
  | none => .error "NotFound"

/-! ### Reading stage (modelled from the spec, mirrored by the frontend) -/

/-- Per-document truncation to a fixed maximum length (about 20,000
characters per the spec). -/
def truncateContent (s : String) : String := String.mk (s.data.take 20000)

/-- Modelled from the spec: the `reading` stage reads at most the top 5
search hits; each fetched document yields `{title,url,content}` (truncated),
and a per-document fetch failure yields `{title,url,error}` instead of
aborting the stage. -/
def readStage (fetch : String → Except String String) (hits : List SourceRef) : ReadOutput :=
  { documents :=
      (hits.take 5).map (fun h =>
        match fetch h.url with
        | .ok c => ReadDoc.content h.title h.url (truncateContent c)
        | .error e => ReadDoc.fetchFailed h.title h.url e) }

/-- Text the frontend shows for a read document — its content, or the error
string in its place (`r.content || r.error` in App's Reading section). -/
def displayText : ReadDoc → String
  | .content _ _ c => c
  | .fetchFailed _ _ e => e

/-- Surface keys of the one-shot response's `Briefing`, embedded from the
`OneShotResponse` declaration of the api modules and the `BriefingCard`
wiring in App. -/
def briefToOneShot (b : StructuredBrief) : List (String × String) :=
  [ ("Introduction", b.introduction),
    ("Key Findings", b.key_findings),
    ("Risks", b.risks),
    ("Conclusion", b.conclusion),
    ("Sources", b.sources) ]

/-! ### Frontend polling loop (embedded from App's useEffect) -/

/-- Outcome of one `getTask` poll: a snapshot, or a failed request. -/
inductive FetchResult
  | success (t : Task)
  | failure
deriving DecidableEq

/-- Client-side polling state: whether the interval is still installed
(`active`), and the last stored snapshot. -/
structure PollState where
  active : Bool
  lastTask : Option Task
deriving DecidableEq

/-- Whether a snapshot's status is `running` (`t.status !== 'running'` guard). -/
def isRunning (t : Task) : Bool :=
  match t.status with
  | .running => true
  | _ => false

/-- One 1200ms interval tick of App's polling useEffect: while active, it
issues a `getTask` request; on success it stores the snapshot and clears the
interval when the status is no longer `running`; on a failed request it
clears the interval. The returned Bool records whether a request was issued. -/
def pollTick (r : FetchResult) (s : PollState) : PollState × Bool :=
  if s.active then
    match r with
    | .success t => (⟨isRunning t, some t⟩, true)
    | .failure => (⟨false, s.lastTask⟩, true)
  else
    (s, false)

/-- Run the polling loop over a sequence of fetch outcomes, counting how
many `getTask` requests were issued. -/
def pollRun (rs : List FetchResult) (s : PollState) : PollState × Nat :=
  match rs with
  | [] => (s, 0)
  | r :: rest =>
    let p := pollTick r s
    let q := pollRun rest p.1
    (q.1, (if p.2 then 1 else 0) + q.2)

/-! ### API client modules (embedded from the two api module variants) -/

/-- HTTP method of a client request. -/
inductive Method
  | post
  | get
deriving DecidableEq, Repr

/-- An HTTP request issued by the api client: method, URL, and the JSON
body's query string when present. -/
structure HttpRequest where
  method : Method
  url : String
  body : Option String
deriving DecidableEq, Repr

/-- Base URL of the first api module variant:
`import.meta.env.VITE_API_BASE || 'http://localhost:8000'` (the JS `or`
falls through on an unset or empty value). -/
def api3Base (env : Option String) : String :=
  match env with
  | some v => if v = "" then "http://localhost:8000" else v
  | none => "http://localhost:8000"

/-- Module initialization of the second api module variant: it throws when
`VITE_API_BASE` is unset (or empty, which is JS-falsy), else yields the base. -/
def api4Base (env : Option String) : Except String String :=
  match env with
  | some v =>
    if v = "" then
      .error "VITE_API_BASE is not set. Make sure you configured your frontend environment variable."
    else
      .ok v
  | none =>
    .error "VITE_API_BASE is not set. Make sure you configured your frontend environment variable."

/-- Function `startResearch` of the first variant: POST `API_BASE + /research` with
the query in the body. -/
def api3StartResearchReq (env : Option String) (query : String) : HttpRequest :=
  ⟨.post, api3Base env ++ "/research", some query⟩

/-- Function `getTask` of the first variant: GET `API_BASE + /research/taskId`. -/
def api3GetTaskReq (env : Option String) (taskId : String) : HttpRequest :=
  ⟨.get, api3Base env ++ "/research/" ++ taskId, none⟩

/-- Function `runOneShotResearch` of the first variant with its default endpoint
argument `API_BASE + /api/endpoint`: POST with the query in the body. -/
def api3OneShotDefaultReq (env : Option String) (query : String) : HttpRequest :=
  ⟨.post, api3Base env ++ "/api/endpoint", some query⟩

/-- Function `startResearch` of the second variant; the module itself fails to load
when `VITE_API_BASE` is missing. -/
def api4StartResearchReq (env : Option String) (query : String) : Except String HttpRequest :=
  (api4Base env).map (fun b => ⟨.post, b ++ "/research", some query⟩)

/-- Function `getTask` of the second variant. -/
def api4GetTaskReq (env : Option String) (taskId : String) : Except String HttpRequest :=
  (api4Base env).map (fun b => ⟨.get, b ++ "/research/" ++ taskId, none⟩)

/-- Function `runOneShotResearch` of the second variant: POST `API_BASE + /api/endpoint`. -/
def api4OneShotReq (env : Option String) (query : String) : Except String HttpRequest :=
  (api4Base env).map (fun b => ⟨.post, b ++ "/api/endpoint", some query⟩)

/-- Observable equivalence of the two api client modules at a given
environment: the second module loads, and for every query and task id the
three operations issue the same requests (both variants also return the same
response fields — `data.task_id` resp. the full `data` — so request equality
is the whole observable difference). -/
def apiModulesEquivalent (env : Option String) : Prop :=
  ∀ query taskId : String,
    api4StartResearchReq env query = .ok (api3StartResearchReq env query) ∧
    api4GetTaskReq env taskId = .ok (api3GetTaskReq env taskId) ∧
    api4OneShotReq env query = .ok (api3OneShotDefaultReq env query)

/-! ### getHost (embedded from App) -/

/-- Result of a successful `new URL(...)` construction; only the hostname is
consumed by `getHost`. -/
structure URLParts where
  hostname : String
deriving DecidableEq, Repr

/-- Function `getHost` from App, with the platform `new URL` constructor abstracted as
a partial parser (`none` models the constructor throwing): inputs not
starting with `http` are prefixed with `https://` after stripping leading
slashes; a successful parse yields the hostname with one leading `www.`
removed; the catch branch yields the empty string. -/
def getHost (newURL : String → Option URLParts) (u : String) : String :=
  match newURL (if u.startsWith "http" then u else "https://" ++ u.dropWhile (fun c => c = '/')) with
  | some url => if url.hostname.startsWith "www." then url.hostname.drop 4 else url.hostname
  | none => ""

/-! ### Concrete data used by the witnesses -/

/-- A concrete environment in which every stage succeeds. -/
def demoEnv : Env :=
  { planFn := fun q => .ok { steps := [q] },
    searchFn := fun q => .ok { hits := [{ title := q, url := "https://example.org/a" }] },
    readFn := fun hs => .ok { documents := hs.map (fun h => ReadDoc.content h.title h.url "text") },
    verifyFn := fun _ => .ok { analysis := "ok" },
    reflectFn := fun _ _ => .ok { need_more := false, refined_query := none },
    briefFn := fun _ => .ok { introduction := "i", key_findings := "k", risks := "r",
                              conclusion := "c", sources := "s" } }

/-- A concrete environment whose searching stage fails. -/
def demoFailEnv : Env :=
  { demoEnv with searchFn := fun _ => .error "provider unreachable" }

/-- The state reached after planning has succeeded under `demoFailEnv`. -/
def sAfterPlan : OState := step demoFailEnv (initState "q" "t")

/-- A concrete running Task snapshot. -/
def demoTask : Task :=
  { task_id := "t1", query := "q", status := .running, steps := {}, brief := none, error := none }

/-- A concrete orchestrator state sitting at `reflecting` with its one
re-search already used. -/
def reflState : OState :=
  { task := demoTask, currentQuery := "q", phase := .reflecting, reflections := 1 }

/-- A concrete fetcher that fails on one URL and succeeds elsewhere. -/
def demoFetch : String → Except String String :=
  fun u => if u = "https://bad.example.org" then .error "fetch failed" else .ok "content"

/-- Two concrete search hits, the second with a failing URL. -/
def demoHits : List SourceRef :=
  [{ title := "A", url := "https://a.example.org" },
   { title := "B", url := "https://bad.example.org" }]

/-! ### Pipeline invariants -/

/-- Presence of stage outputs is monotone in pipeline order: a later stage
present implies every earlier stage present. -/
def MonoPres (p : StageName → Bool) : Prop :=
  ∀ i j : StageName, stageIdx i ≤ stageIdx j → p j = true → p i = true

/-- Stage outputs appear in the Task in pipeline order (spec invariant). -/
def StepsMonotone (s : Steps) : Prop :=
  MonoPres (stagePresent s)

theorem stageIdx_inj : ∀ i j : StageName, stageIdx i = stageIdx j → i = j := by decide

theorem monoPres_update (p' p : StageName → Bool) (k : StageName)
    (hp' : ∀ n, p' n = if n = k then true else p n)
    (hlt : ∀ i, stageIdx i < stageIdx k → p i = true)
    (hmono : MonoPres p) : MonoPres p' := by
  intro i j hij hj
  rw [hp']
  by_cases hik : i = k
  · simp [hik]
  · rw [if_neg hik]
    rw [hp'] at hj
    by_cases hjk : j = k
    · subst hjk
      exact hlt i (lt_of_le_of_ne hij (fun he => hik (stageIdx_inj i j he)))
    · rw [if_neg hjk] at hj
      exact hmono i j hij hj

theorem upTo_update (p' p : StageName → Bool) (k : StageName)
    (hp' : ∀ n, p' n = if n = k then true else p n)
    (hold : ∀ n, stageIdx n < stageIdx k → p n = true) :
    ∀ n, stageIdx n < stageIdx k + 1 → p' n = true := by
  intro n hn
  rw [hp']
  by_cases hk : n = k
  · simp [hk]
  · rw [if_neg hk]
    refine hold n ?_
    have hne : stageIdx n ≠ stageIdx k := fun he => hk (stageIdx_inj n k he)
    omega

theorem stagePresent_setPlanning (st : Steps) (o : PlanOutput) (n : StageName) :
    stagePresent { st with planning := some o } n =
      if n = StageName.planning then true else stagePresent st n := by
  cases n <;> simp [stagePresent]

theorem stagePresent_setSearching (st : Steps) (o : SearchOutput) (n : StageName) :
    stagePresent { st with searching := some o } n =
      if n = StageName.searching then true else stagePresent st n := by
  cases n <;> simp [stagePresent]

theorem stagePresent_setReading (st : Steps) (o : ReadOutput) (n : StageName) :
    stagePresent { st with reading := some o } n =
      if n = StageName.reading then true else stagePresent st n := by
  cases n <;> simp [stagePresent]

theorem stagePresent_setVerifying (st : Steps) (o : VerifyOutput) (n : StageName) :
    stagePresent { st with verifying := some o } n =
      if n = StageName.verifying then true else stagePresent st n := by
  cases n <;> simp [stagePresent]

theorem stagePresent_setReflecting (st : Steps) (o : ReflectOutput) (n : StageName) :
    stagePresent { st with reflecting := some o } n =
      if n = StageName.reflecting then true else stagePresent st n := by
  cases n <;> simp [stagePresent]

theorem stagePresent_setBriefing (st : Steps) (o : StructuredBrief) (n : StageName) :
    stagePresent { st with briefing := some o } n =
      if n = StageName.briefing then true else stagePresent st n := by
  cases n <;> simp [stagePresent]

/-- The inductive invariant of one orchestrator run: stage presence is
monotone, the status is `running` exactly while the machine has not halted,
every stage strictly before the current phase is present, at most one
reflection-triggered re-search has been taken, and a `completed` task carries
its brief (also recorded under `steps.briefing`). -/
def Inv (s : OState) : Prop :=
  MonoPres (stagePresent s.task.steps) ∧
  (s.task.status = Status.running ↔ s.phase ≠ Phase.done) ∧
  (s.task.status = Status.running →
    ∀ n : StageName, stageIdx n < phaseIdx s.phase → stagePresent s.task.steps n = true) ∧
  s.reflections ≤ 1 ∧
  (s.task.status = Status.completed →
    s.task.brief.isSome = true ∧ s.task.brief = s.task.steps.briefing)

theorem inv_init (q tid : String) : Inv (initState q tid) := by
  refine ⟨?_, ?_, ?_, ?_, ?_⟩
  · intro i j _ hj
    cases j <;> simp [initState, stagePresent] at hj
  · simp [initState]
  · intro _ n hn
    simp [initState, phaseIdx] at hn
  · simp [initState]
  · intro hc
    simp [initState] at hc

theorem inv_failState (s : OState) (m : String)
    (h1 : MonoPres (stagePresent s.task.steps)) (h4 : s.reflections ≤ 1) :
    Inv (failState s m) := by
  refine ⟨h1, ?_, ?_, h4, ?_⟩
  · simp [failState]
  · intro hrun
    simp [failState] at hrun
  · intro hc
    simp [failState] at hc

theorem inv_advance (s : OState) (k : StageName) (ph : Phase) (st' : Steps)
    (q' : String) (r' : Nat)
    (hInv : Inv s)
    (hpd : s.phase ≠ Phase.done)
    (hidx : phaseIdx s.phase = stageIdx k)
    (hph : phaseIdx ph ≤ stageIdx k + 1)
    (hphd : ph ≠ Phase.done)
    (hst : ∀ n, stagePresent st' n = if n = k then true else stagePresent s.task.steps n)
    (hr : r' ≤ 1) :
    Inv { s with task := { s.task with steps := st' },
                 currentQuery := q', phase := ph, reflections := r' } := by
  obtain ⟨h1, h2, h3, _, _⟩ := hInv
  have hrun : s.task.status = Status.running := h2.mpr hpd
  have hold : ∀ n, stageIdx n < stageIdx k → stagePresent s.task.steps n = true := by
    intro n hn
    refine h3 hrun n ?_
    rw [hidx]
    exact hn
  refine ⟨?_, ?_, ?_, hr, ?_⟩
  · exact monoPres_update (stagePresent st') (stagePresent s.task.steps) k hst hold h1
  · show s.task.status = Status.running ↔ ph ≠ Phase.done
    exact ⟨fun _ => hphd, fun _ => hrun⟩
  · intro _ n hn
    exact upTo_update (stagePresent st') (stagePresent s.task.steps) k hst hold n
      (lt_of_lt_of_le hn hph)
  · intro hc
    have hc' : s.task.status = Status.completed := hc
    rw [hrun] at hc'
    cases hc'

theorem inv_step (env : Env) (s : OState) (h : Inv s) : Inv (step env s) := by
  unfold step
  split
  · exact h
  · -- planning
    next hp =>
    split
    · exact inv_failState s _ h.1 h.2.2.2.1
    · next o _ =>
      exact inv_advance s .planning .searching _ s.currentQuery s.reflections h
        (by simp [hp]) (by rw [hp]; decide) (by decide) (by decide)
        (stagePresent_setPlanning s.task.steps o) h.2.2.2.1
  · -- searching
    next hp =>
    split
    · exact inv_failState s _ h.1 h.2.2.2.1
    · next o _ =>
      exact inv_advance s .searching .reading _ s.currentQuery s.reflections h
        (by simp [hp]) (by rw [hp]; decide) (by decide) (by decide)
        (stagePresent_setSearching s.task.steps o) h.2.2.2.1
  · -- reading
    next hp =>
    split
    · exact inv_failState s _ h.1 h.2.2.2.1
    · next so _ =>
      split
      · exact inv_failState s _ h.1 h.2.2.2.1
      · next o _ =>
        exact inv_advance s .reading .verifying _ s.currentQuery s.reflections h
          (by simp [hp]) (by rw [hp]; decide) (by decide) (by decide)
          (stagePresent_setReading s.task.steps o) h.2.2.2.1
  · -- verifying
    next hp =>
    split
    · exact inv_failState s _ h.1 h.2.2.2.1
    · next ro _ =>
      split
      · exact inv_failState s _ h.1 h.2.2.2.1
      · next o _ =>
        exact inv_advance s .verifying .reflecting _ s.currentQuery s.reflections h
          (by simp [hp]) (by rw [hp]; decide) (by decide) (by decide)
          (stagePresent_setVerifying s.task.steps o) h.2.2.2.1
  · -- reflecting
    next hp =>
    split
    · exact inv_failState s _ h.1 h.2.2.2.1
    · next vo _ =>
      split
      · exact inv_failState s _ h.1 h.2.2.2.1
      · next o _ =>
        split
        · next hc =>
          have hr0 : s.reflections = 0 := by
            have hc' := hc
            simp at hc'
            exact hc'.2
          refine inv_advance s .reflecting .searching _ _ (s.reflections + 1) h
            (by simp [hp]) (by rw [hp]; decide) (by decide) (by decide)
            (stagePresent_setReflecting s.task.steps o) (by omega)
        · exact inv_advance s .reflecting .briefing _ s.currentQuery s.reflections h
            (by simp [hp]) (by rw [hp]; decide) (by decide) (by decide)
            (stagePresent_setReflecting s.task.steps o) h.2.2.2.1
  · -- briefing
    next hp =>
    split
    · exact inv_failState s _ h.1 h.2.2.2.1
    · next b _ =>
      obtain ⟨h1, h2, h3, h4, _⟩ := h
      have hrun : s.task.status = Status.running := h2.mpr (by simp [hp])
      have hold : ∀ n, stageIdx n < stageIdx StageName.briefing →
          stagePresent s.task.steps n = true := by
        intro n hn
        refine h3 hrun n ?_
        rw [hp]
        exact hn
      refine ⟨?_, ?_, ?_, h4, ?_⟩
      · exact monoPres_update _ (stagePresent s.task.steps) .briefing
          (stagePresent_setBriefing s.task.steps b) hold h1
      · show Status.completed = Status.running ↔ Phase.done ≠ Phase.done
        simp
      · intro hr
        cases hr
      · intro _
        exact ⟨rfl, rfl⟩

theorem step_done (env : Env) (s : OState) (hd : s.phase = Phase.done) :
    step env s = s := by
  unfold step
  rw [hd]

theorem iterate_done (env : Env) (s : OState) (hd : s.phase = Phase.done) :
    ∀ k, (step env)^[k] s = s := by
  intro k
  induction k with
  | zero => rfl
  | succ m ih => rw [Function.iterate_succ_apply, step_done env s hd, ih]

theorem inv_iterate (env : Env) (q tid : String) (n : Nat) :
    Inv ((step env)^[n] (initState q tid)) := by
  induction n with
  | zero => exact inv_init q tid
  | succ m ih =>
    rw [Function.iterate_succ_apply']
    exact inv_step env _ ih

/-! ### Termination of the pipeline -/

/-- Ranking function of the state machine: strictly decreases on every
transition out of a non-`done` phase. -/
def pipeMeasure (s : OState) : Nat :=
  if s.phase = Phase.done then 0
  else (7 - phaseIdx s.phase) + (if s.reflections = 0 then 4 else 0)

theorem pipeMeasure_pos (s : OState) (h : s.phase ≠ Phase.done) : 0 < pipeMeasure s := by
  have h5 : phaseIdx s.phase ≤ 5 := by
    cases hp : s.phase
    case done => exact absurd hp h
    all_goals decide
  unfold pipeMeasure
  rw [if_neg h]
  split <;> omega

theorem pipeMeasure_failState (s : OState) (m : String) :
    pipeMeasure (failState s m) = 0 := by
  simp [pipeMeasure, failState]

theorem pipeMeasure_step_lt (env : Env) (s : OState) (h : s.phase ≠ Phase.done) :
    pipeMeasure (step env s) < pipeMeasure s := by
  unfold step
  split
  · next hp => exact absurd hp h
  · -- planning
    next hp =>
    split
    · rw [pipeMeasure_failState]
      exact pipeMeasure_pos s h
    · simp only [pipeMeasure, hp]
      by_cases hr : s.reflections = 0 <;> simp [phaseIdx, hr]
  · -- searching
    next hp =>
    split
    · rw [pipeMeasure_failState]
      exact pipeMeasure_pos s h
    · simp only [pipeMeasure, hp]
      by_cases hr : s.reflections = 0 <;> simp [phaseIdx, hr]
  · -- reading
    next hp =>
    split
    · rw [pipeMeasure_failState]
      exact pipeMeasure_pos s h
    · split
      · rw [pipeMeasure_failState]
        exact pipeMeasure_pos s h
      · simp only [pipeMeasure, hp]
        by_cases hr : s.reflections = 0 <;> simp [phaseIdx, hr]
  · -- verifying
    next hp =>
    split
    · rw [pipeMeasure_failState]
      exact pipeMeasure_pos s h
    · split
      · rw [pipeMeasure_failState]
        exact pipeMeasure_pos s h
      · simp only [pipeMeasure, hp]
        by_cases hr : s.reflections = 0 <;> simp [phaseIdx, hr]
  · -- reflecting
    next hp =>
    split
    · rw [pipeMeasure_failState]
      exact pipeMeasure_pos s h
    · split
      · rw [pipeMeasure_failState]
        exact pipeMeasure_pos s h
      · split
        · next hc =>
          have hr0 : s.reflections = 0 := by
            have hc' := hc
            simp at hc'
            exact hc'.2
          simp [pipeMeasure, hp, phaseIdx, hr0]
        · simp only [pipeMeasure, hp]
          by_cases hr : s.reflections = 0 <;> simp [phaseIdx, hr]
  · -- briefing
    next hp =>
    split
    · rw [pipeMeasure_failState]
      exact pipeMeasure_pos s h
    · refine lt_of_le_of_lt (le_of_eq ?_) (pipeMeasure_pos s h)
      simp [pipeMeasure]

theorem iterate_done_of_measure (env : Env) :
    ∀ (n : Nat) (s : OState), pipeMeasure s ≤ n → ((step env)^[n] s).phase = Phase.done := by
  intro n
  induction n with
  | zero =>
    intro s hs
    by_contra hd
    have := pipeMeasure_pos s hd
    omega
  | succ m ih =>
    intro s hs
    by_cases hd : s.phase = Phase.done
    · rw [Function.iterate_succ_apply, step_done env s hd]
      have h0 : pipeMeasure s = 0 := by simp [pipeMeasure, hd]
      exact ih s (by omega)
    · have hlt := pipeMeasure_step_lt env s hd
      rw [Function.iterate_succ_apply]
      exact ih (step env s) (by omega)

theorem pipeMeasure_init (q tid : String) : pipeMeasure (initState q tid) = 11 := by
  simp [pipeMeasure, initState, phaseIdx]

theorem final_phase_done (env : Env) (q tid : String) :
    ((step env)^[11] (initState q tid)).phase = Phase.done := by
  refine iterate_done_of_measure env 11 (initState q tid) ?_
  rw [pipeMeasure_init]

theorem finalTask_not_running (env : Env) (q tid : String) :
    (finalTask env q tid).status ≠ Status.running := by
  have hinv := inv_iterate env q tid 11
  have hd := final_phase_done env q tid
  intro hr
  exact hinv.2.1.mp hr hd

theorem finalTask_terminal (env : Env) (q tid : String) :
    (finalTask env q tid).status = Status.completed ∨
      (finalTask env q tid).status = Status.error := by
  have h := finalTask_not_running env q tid
  cases hs : (finalTask env q tid).status
  · exact absurd hs h
  · exact Or.inl rfl
  · exact Or.inr rfl

/-! ### Claim theorems -/

/-- C1: in every polled Task snapshot of an orchestrator run, stage outputs
appear in pipeline order — a later stage's presence implies every earlier
stage's presence; in particular a snapshot never shows `reading` present
without `planning` and `searching` already present. -/
theorem snapshot_stages_monotone (env : Env) (q tid : String) (n : Nat) :
    StepsMonotone ((step env)^[n] (initState q tid)).task.steps ∧
    (stagePresent ((step env)^[n] (initState q tid)).task.steps .reading = true →
      stagePresent ((step env)^[n] (initState q tid)).task.steps .planning = true ∧
      stagePresent ((step env)^[n] (initState q tid)).task.steps .searching = true) :=
  have h := (inv_iterate env q tid n).1
  ⟨h, fun hr => ⟨h .planning .reading (by decide) hr, h .searching .reading (by decide) hr⟩⟩

theorem snapshot_stages_monotone_witness :
    stagePresent ((step demoEnv)^[3] (initState "llm" "t1")).task.steps .planning = true ∧
    stagePresent ((step demoEnv)^[3] (initState "llm" "t1")).task.steps .searching = true :=
  (snapshot_stages_monotone demoEnv "llm" "t1" 3).2 (by decide)

/-- C2: the reflecting stage triggers at most one additional searching pass
(the re-search counter never exceeds 1, and once a re-search has been taken
a later reflecting step never loops back to searching), so the pipeline is
stationary after 11 transitions and every task terminates with status
completed or error. -/
theorem reflection_bounded_and_terminates (env : Env) (q tid : String) :
    (∀ n : Nat, ((step env)^[n] (initState q tid)).reflections ≤ 1) ∧
    (∀ s : OState, s.phase = Phase.reflecting → 1 ≤ s.reflections →
      (step env s).phase ≠ Phase.searching) ∧
    ((step env)^[11] (initState q tid)).phase = Phase.done ∧
    ((finalTask env q tid).status = Status.completed ∨
      (finalTask env q tid).status = Status.error) := by
  refine ⟨fun n => (inv_iterate env q tid n).2.2.2.1, ?_,
    final_phase_done env q tid, finalTask_terminal env q tid⟩
  intro s hp hr
  simp only [step, hp]
  split
  · simp [failState]
  · split
    · simp [failState]
    · split
      · next hc =>
        have hc' := hc
        simp at hc'
        exact absurd hc'.2 (by omega)
      · simp

theorem reflection_bounded_and_terminates_witness :
    ((step demoEnv)^[7] (initState "q" "t")).reflections ≤ 1 ∧
    (step demoEnv reflState).phase ≠ Phase.searching ∧
    ((finalTask demoEnv "q" "t").status = Status.completed ∨
      (finalTask demoEnv "q" "t").status = Status.error) :=
  ⟨(reflection_bounded_and_terminates demoEnv "q" "t").1 7,
   (reflection_bounded_and_terminates demoEnv "q" "t").2.1 reflState rfl (by decide),
   (reflection_bounded_and_terminates demoEnv "q" "t").2.2.2⟩

/-- C3: run_once runs the pipeline until the task's status is completed or
error and returns the stage-output map keyed by exactly the six stage names
Planning, Searching, Reading, Verifying, Reflecting, Briefing. -/
theorem run_once_keys_and_termination (env : Env) (q tid : String) :
    (runOnce env q tid).map Prod.fst =
      ["Planning", "Searching", "Reading", "Verifying", "Reflecting", "Briefing"] ∧
    ((finalTask env q tid).status = Status.completed ∨
      (finalTask env q tid).status = Status.error) :=
  ⟨rfl, finalTask_terminal env q tid⟩

/-- C4: every Task snapshot returned by get_status has the declared fields
with status drawn from exactly the set {running, completed, error}, and its
steps mapping assigns each of the six stage names either a stage output or
absent. -/
theorem get_status_snapshot_shape (store : List (String × Task)) (tid : String) (t : Task)
    (_hok : getStatus store tid = .ok t) :
    (t.status = Status.running ∨ t.status = Status.completed ∨ t.status = Status.error) ∧
    (∀ n : StageName, n ∈ stageNames) ∧
    (∀ n : StageName, stepsLookup t.steps n = none ∨ ∃ o, stepsLookup t.steps n = some o) := by
  refine ⟨?_, ?_, ?_⟩
  · cases ht : t.status
    · exact Or.inl rfl
    · exact Or.inr (Or.inl rfl)
    · exact Or.inr (Or.inr rfl)
  · intro n
    cases n <;> simp [stageNames]
  · intro n
    cases ho : stepsLookup t.steps n
    · exact Or.inl rfl
    · exact Or.inr ⟨_, rfl⟩

theorem get_status_snapshot_shape_witness :
    (demoTask.status = Status.running ∨ demoTask.status = Status.completed ∨
      demoTask.status = Status.error) ∧
    (StageName.reading ∈ stageNames) ∧
    (stepsLookup demoTask.steps .reading = none ∨
      ∃ o, stepsLookup demoTask.steps .reading = some o) :=
  have h := get_status_snapshot_shape [("t1", demoTask)] "t1" demoTask rfl
  ⟨h.1, h.2.1 .reading, h.2.2 .reading⟩

/-- C5: the reading stage reads at most the top 5 search hits; every
produced entry comes from one of those hits and is {title,url,content}
(content truncated) on a successful fetch or {title,url,error} on a failed
fetch, with the error string shown in place of content; and an individual
fetch failure never aborts the stage — all min(5,|hits|) entries are
produced regardless of fetch outcomes. -/
theorem reading_stage_spec (fetch : String → Except String String) (hits : List SourceRef) :
    (readStage fetch hits).documents.length ≤ 5 ∧
    (readStage fetch hits).documents.length = min 5 hits.length ∧
    (∀ d ∈ (readStage fetch hits).documents, ∃ h, h ∈ hits ∧
      ((∃ c, fetch h.url = .ok c ∧ d = ReadDoc.content h.title h.url (truncateContent c) ∧
          displayText d = truncateContent c) ∨
       (∃ e, fetch h.url = .error e ∧ d = ReadDoc.fetchFailed h.title h.url e ∧
          displayText d = e))) := by
  refine ⟨?_, ?_, ?_⟩
  · simp only [readStage, List.length_map, List.length_take]
    omega
  · simp [readStage]
  · intro d hd
    simp only [readStage, List.mem_map] at hd
    obtain ⟨h, hmem, rfl⟩ := hd
    refine ⟨h, List.take_subset 5 hits hmem, ?_⟩
    cases hf : fetch h.url with
    | ok c =>
      exact Or.inl ⟨c, rfl, rfl, rfl⟩
    | error e =>
      exact Or.inr ⟨e, rfl, rfl, rfl⟩

theorem reading_stage_spec_witness :
    (readStage demoFetch demoHits).documents.length ≤ 5 ∧
    (readStage demoFetch demoHits).documents.length = min 5 demoHits.length :=
  ⟨(reading_stage_spec demoFetch demoHits).1, (reading_stage_spec demoFetch demoHits).2.1⟩

/-- C6: when a stage of a running task fails unrecoverably, the task's
status becomes error and an error message is recorded, every stage output
recorded before the failure remains untouched in steps, and no further
stage ever executes (the state is fixed from then on) — the failed task
stays inspectable. -/
theorem stage_failure_inspectable (env : Env) (s : OState)
    (hrun : s.task.status = Status.running)
    (herr : (step env s).task.status = Status.error) :
    (∃ m, (step env s).task.error = some m) ∧
    (step env s).task.steps = s.task.steps ∧
    (∀ k, (step env)^[k] (step env s) = step env s) := by
  cases hp : s.phase with
  | done =>
    rw [step_done env s hp] at herr
    rw [hrun] at herr
    cases herr
  | planning =>
    cases hq : env.planFn s.currentQuery with
    | error m =>
      have hstep : step env s = failState s m := by
        simp only [step, hp, hq]
      rw [hstep]
      exact ⟨⟨m, rfl⟩, rfl, fun k => iterate_done env (failState s m) rfl k⟩
    | ok o =>
      have hst : (step env s).task.status = s.task.status := by
        simp only [step, hp, hq]
      rw [hst, hrun] at herr
      cases herr
  | searching =>
    cases hq : env.searchFn s.currentQuery with
    | error m =>
      have hstep : step env s = failState s m := by
        simp only [step, hp, hq]
      rw [hstep]
      exact ⟨⟨m, rfl⟩, rfl, fun k => iterate_done env (failState s m) rfl k⟩
    | ok o =>
      have hst : (step env s).task.status = s.task.status := by
        simp only [step, hp, hq]
      rw [hst, hrun] at herr
      cases herr
  | reading =>
    cases hso : s.task.steps.searching with
    | none =>
      have hstep : step env s = failState s "internal invariant violation: missing search output" := by
        simp only [step, hp, hso]
      rw [hstep]
      exact ⟨⟨_, rfl⟩, rfl, fun k => iterate_done env _ rfl k⟩
    | some so =>
      cases hq : env.readFn so.hits with
      | error m =>
        have hstep : step env s = failState s m := by
          simp only [step, hp, hso, hq]
        rw [hstep]
        exact ⟨⟨m, rfl⟩, rfl, fun k => iterate_done env (failState s m) rfl k⟩
      | ok o =>
        have hst : (step env s).task.status = s.task.status := by
          simp only [step, hp, hso, hq]
        rw [hst, hrun] at herr
        cases herr
  | verifying =>
    cases hro : s.task.steps.reading with
    | none =>
      have hstep : step env s = failState s "internal invariant violation: missing read output" := by
        simp only [step, hp, hro]
      rw [hstep]
      exact ⟨⟨_, rfl⟩, rfl, fun k => iterate_done env _ rfl k⟩
    | some ro =>
      cases hq : env.verifyFn ro with
      | error m =>
        have hstep : step env s = failState s m := by
          simp only [step, hp, hro, hq]
        rw [hstep]
        exact ⟨⟨m, rfl⟩, rfl, fun k => iterate_done env (failState s m) rfl k⟩
      | ok o =>
        have hst : (step env s).task.status = s.task.status := by
          simp only [step, hp, hro, hq]
        rw [hst, hrun] at herr
        cases herr
  | reflecting =>
    cases hvo : s.task.steps.verifying with
    | none =>
      have hstep : step env s = failState s "internal invariant violation: missing verify output" := by
        simp only [step, hp, hvo]
      rw [hstep]
      exact ⟨⟨_, rfl⟩, rfl, fun k => iterate_done env _ rfl k⟩
    | some vo =>
      cases hq : env.reflectFn s.currentQuery vo with
      | error m =>
        have hstep : step env s = failState s m := by
          simp only [step, hp, hvo, hq]
        rw [hstep]
        exact ⟨⟨m, rfl⟩, rfl, fun k => iterate_done env (failState s m) rfl k⟩
      | ok o =>
        have hst : (step env s).task.status = s.task.status := by
          simp only [step, hp, hvo, hq]
          split <;> rfl
        rw [hst, hrun] at herr
        cases herr
  | briefing =>
    cases hq : env.briefFn s.currentQuery with
    | error m =>
      have hstep : step env s = failState s m := by
        simp only [step, hp, hq]
      rw [hstep]
      exact ⟨⟨m, rfl⟩, rfl, fun k => iterate_done env (failState s m) rfl k⟩
    | ok b =>
      have hst : (step env s).task.status = Status.completed := by
        simp only [step, hp, hq]
      rw [hst] at herr
      cases herr

theorem stage_failure_inspectable_witness :
    (∃ m, (step demoFailEnv sAfterPlan).task.error = some m) ∧
    (step demoFailEnv sAfterPlan).task.steps = sAfterPlan.task.steps :=
  have h := stage_failure_inspectable demoFailEnv sAfterPlan (by decide) (by decide)
  ⟨h.1, h.2.1⟩

/-- C7: once a task's status is completed or error the Task never changes
again (every further machine step is the identity), and the client polls
only while the latest snapshot is running: a polling tick stays active only
when it was active and the fetch succeeded with a running status, and once
the interval is cleared the loop never issues another get_status request. -/
theorem task_immutable_and_poll_stops (env : Env) (q tid : String) (n : Nat) :
    (((step env)^[n] (initState q tid)).task.status = Status.completed ∨
        ((step env)^[n] (initState q tid)).task.status = Status.error →
      ∀ m, (step env)^[m] ((step env)^[n] (initState q tid)) = (step env)^[n] (initState q tid)) ∧
    (∀ r ps, (pollTick r ps).1.active = true →
      ps.active = true ∧ ∃ t, r = FetchResult.success t ∧ t.status = Status.running) ∧
    (∀ rs ps, ps.active = false → pollRun rs ps = (ps, 0)) := by
  refine ⟨?_, ?_, ?_⟩
  · intro h m
    have hinv := inv_iterate env q tid n
    have hd : ((step env)^[n] (initState q tid)).phase = Phase.done := by
      by_contra hnd
      have hrun := hinv.2.1.mpr hnd
      rcases h with h | h <;> rw [hrun] at h <;> cases h
    exact iterate_done env _ hd m
  · intro r ps hact
    by_cases hp : ps.active = true
    · cases r with
      | success t =>
        have hact' : isRunning t = true := by
          unfold pollTick at hact
          rw [if_pos hp] at hact
          exact hact
        refine ⟨hp, t, rfl, ?_⟩
        cases ht : t.status
        · rfl
        · unfold isRunning at hact'
          rw [ht] at hact'
          exact Bool.noConfusion hact'
        · unfold isRunning at hact'
          rw [ht] at hact'
          exact Bool.noConfusion hact'
      | failure =>
        unfold pollTick at hact
        rw [if_pos hp] at hact
        exact Bool.noConfusion hact
    · unfold pollTick at hact
      rw [if_neg hp] at hact
      exact absurd hact hp
  · intro rs ps hps
    induction rs with
    | nil => rfl
    | cons r rest ih =>
      have ht : pollTick r ps = (ps, false) := by
        simp [pollTick, hps]
      show pollRun (r :: rest) ps = (ps, 0)
      simp [pollRun, ht, ih]

theorem task_immutable_and_poll_stops_witness :
    ((step demoEnv)^[2] ((step demoEnv)^[11] (initState "q" "t")) =
      (step demoEnv)^[11] (initState "q" "t")) ∧
    ((⟨true, none⟩ : PollState).active = true ∧
      ∃ t, FetchResult.success demoTask = FetchResult.success t ∧ t.status = Status.running) ∧
    pollRun [FetchResult.failure] ⟨false, none⟩ = (⟨false, none⟩, 0) :=
  ⟨(task_immutable_and_poll_stops demoEnv "q" "t" 11).1 (by decide) 2,
   (task_immutable_and_poll_stops demoEnv "q" "t" 11).2.1
     (FetchResult.success demoTask) ⟨true, none⟩ (by decide),
   (task_immutable_and_poll_stops demoEnv "q" "t" 11).2.2 [FetchResult.failure] ⟨false, none⟩ rfl⟩

/-- C8: every task that reaches status completed carries a final
StructuredBrief (a record with exactly the sections introduction,
key_findings, risks, conclusion, sources), recorded both as the task's
brief and under steps.briefing, and its one-shot Briefing surface carries
exactly the keys Introduction, Key Findings, Risks, Conclusion, Sources. -/
theorem completed_brief_sections (env : Env) (q tid : String)
    (h : (finalTask env q tid).status = Status.completed) :
    ∃ b : StructuredBrief, (finalTask env q tid).brief = some b ∧
      (finalTask env q tid).steps.briefing = some b ∧
      (briefToOneShot b).map Prod.fst =
        ["Introduction", "Key Findings", "Risks", "Conclusion", "Sources"] := by
  have hinv := inv_iterate env q tid 11
  obtain ⟨hsome, heq⟩ := hinv.2.2.2.2 h
  have hsome' : (finalTask env q tid).brief.isSome = true := hsome
  have heq' : (finalTask env q tid).brief = (finalTask env q tid).steps.briefing := heq
  cases hb : (finalTask env q tid).brief with
  | none =>
    rw [hb] at hsome'
    exact Bool.noConfusion hsome'
  | some b =>
    refine ⟨b, rfl, ?_, rfl⟩
    rw [← heq']
    exact hb

theorem completed_brief_sections_witness :
    (finalTask demoEnv "q" "t").status = Status.completed ∧
    ∃ b : StructuredBrief, (finalTask demoEnv "q" "t").brief = some b ∧
      (finalTask demoEnv "q" "t").steps.briefing = some b ∧
      (briefToOneShot b).map Prod.fst =
        ["Introduction", "Key Findings", "Risks", "Conclusion", "Sources"] :=
  ⟨by decide, completed_brief_sections demoEnv "q" "t" (by decide)⟩

/-- C9 counterexample: with VITE_API_BASE set to the empty string — a set
but JS-falsy value — the first api module falls back to
http://localhost:8000 and issues requests there, while the second module
throws at load time, so the two modules are not observably equivalent: the
claim fails under the precondition merely that the variable is set. -/
theorem api_modules_not_equivalent_when_empty :
    (some "" : Option String).isSome = true ∧ ¬ apiModulesEquivalent (some "") := by
  refine ⟨rfl, ?_⟩
  intro h
  have hc := (h "q" "t").1
  simp [api4StartResearchReq, api4Base, api3StartResearchReq, Except.map] at hc

/-- C9 amended: with VITE_API_BASE set to a nonempty string, the two api
client modules are observably equivalent — startResearch, getTask, and
runOneShotResearch (without an explicit endpoint argument) issue identical
requests to identical URLs. -/
theorem api_modules_equivalent_nonempty (s : String) (hs : s ≠ "") :
    apiModulesEquivalent (some s) := by
  intro q tid
  refine ⟨?_, ?_, ?_⟩ <;>
    simp [api4StartResearchReq, api4GetTaskReq, api4OneShotReq, api4Base,
      api3StartResearchReq, api3GetTaskReq, api3OneShotDefaultReq, api3Base, Except.map, hs]

theorem api_modules_equivalent_nonempty_witness :
    api4StartResearchReq (some "http://localhost:8000") "q" =
      .ok (api3StartResearchReq (some "http://localhost:8000") "q") ∧
    api4GetTaskReq (some "http://localhost:8000") "t" =
      .ok (api3GetTaskReq (some "http://localhost:8000") "t") ∧
    api4OneShotReq (some "http://localhost:8000") "q" =
      .ok (api3OneShotDefaultReq (some "http://localhost:8000") "q") :=
  api_modules_equivalent_nonempty "http://localhost:8000" (by decide) "q" "t"

/-- C10: getHost is total on strings and never throws: for every parser
behavior of the platform URL constructor and every input string, it returns
the parsed hostname with one leading www. removed when the input — possibly
after prefixing https:// and stripping leading slashes — parses as a valid
URL, and the empty string otherwise. -/
theorem getHost_total (newURL : String → Option URLParts) (u : String) :
    (newURL (if u.startsWith "http" then u
        else "https://" ++ u.dropWhile (fun c => c = '/')) = none ∧
      getHost newURL u = "") ∨
    (∃ r, newURL (if u.startsWith "http" then u
        else "https://" ++ u.dropWhile (fun c => c = '/')) = some r ∧
      getHost newURL u =
        (if r.hostname.startsWith "www." then r.hostname.drop 4 else r.hostname)) := by
  cases hr : newURL (if u.startsWith "http" then u
      else "https://" ++ u.dropWhile (fun c => c = '/')) with
  | none =>
    refine Or.inl ⟨rfl, ?_⟩
    unfold getHost
    rw [hr]
  | some r =>
    refine Or.inr ⟨r, rfl, ?_⟩
    unfold getHost
    rw [hr]

end ResearchAgent
